import Mathlib

/-!
# Verification of the expression-evaluator core of `main.py`

The repository is a line-oriented mini-language interpreter: each input line
is either a variable assignment (`name = expression`) or a bare expression
over integers, vars, the operators `+ - * / %` and parentheses.

This file gives a shallow embedding of the core of `src/main.py`:
`precedence`, `apply_op`, `evaluate_postfix`, `tokenize`, `infix_to_postfix`
(written `infixToPostfix`), `is_valid_variable_name`, `process_code`, and the
per-session line loop of `on_process` (written `processLines` / `runSession`).

Modelling conventions:
* Python's dynamic int/float values are modelled by `PyNum`; Python floats
  are modelled as exact rationals (the claims at stake concern integer/true
  division typing, not rounding).
* Python exceptions are modelled by `PyExc`; a Python function that can raise
  returns `Except PyExc _`.  `None` values on the evaluation stack are
  modelled by `Option PyNum` (Python's `apply_op` falls through and returns
  `None` on an unknown operator token).
* The message text of `TypeError` is abbreviated to a fixed marker string;
  no claim depends on it.  The other exception texts (`"pop from empty
  list"`, `"too many values to unpack (expected 2)"`, the empty text of
  `ZeroDivisionError`) follow CPython.
* Python strings are `String`/`List Char`; only ASCII inputs are at stake,
  where `Char.isDigit`/`Char.isAlpha`/`Char.isAlphanum` agree with Python's
  `str.isdigit`/`str.isalpha`/`str.isalnum`.
-/

/-- A Python numeric value: an `int` or a `float` (floats modelled exactly). -/
inductive PyNum where
  | int : ℤ → PyNum
  | float : ℚ → PyNum
deriving DecidableEq, Repr

/-- Numeric content of a `PyNum`, forgetting the int/float tag. -/
def PyNum.toRat : PyNum → ℚ
  | PyNum.int z => (z : ℚ)
  | PyNum.float q => q

/-- The exceptions the modelled code can raise. -/
inductive PyExc where
  | zeroDivisionError
  | indexError
  | typeError
  | valueError
deriving DecidableEq, Repr

/-- `str(e)` for the exceptions above (TypeError text abbreviated). -/
def excMsg : PyExc → String
  | PyExc.zeroDivisionError => ""
  | PyExc.indexError => "pop from empty list"
  | PyExc.typeError => "unsupported operand type(s)"
  | PyExc.valueError => "too many values to unpack (expected 2)"

/-- The variable store: Python's `vars` dict, keys are identifier
strings, values are whatever `evaluate_postfix` returned (possibly `None`). -/
abbrev VarStore : Type := List (String × Option PyNum)

/-- Python `a + b` on numbers: `int` when both are `int`, else `float`. -/
def pyAddV : PyNum → PyNum → PyNum
  | PyNum.int x, PyNum.int y => PyNum.int (x + y)
  | x, y => PyNum.float (x.toRat + y.toRat)

/-- Python `a - b` on numbers. -/
def pySubV : PyNum → PyNum → PyNum
  | PyNum.int x, PyNum.int y => PyNum.int (x - y)
  | x, y => PyNum.float (x.toRat - y.toRat)

/-- Python `a * b` on numbers. -/
def pyMulV : PyNum → PyNum → PyNum
  | PyNum.int x, PyNum.int y => PyNum.int (x * y)
  | x, y => PyNum.float (x.toRat * y.toRat)

/-- Python `a / b` on numbers: true division, always a `float`. -/
def pyDivV (x y : PyNum) : PyNum := PyNum.float (x.toRat / y.toRat)

/-- Python `a % b` on numbers: floor-convention remainder, `int` on ints. -/
def pyModV : PyNum → PyNum → PyNum
  | PyNum.int x, PyNum.int y => PyNum.int (Int.fmod x y)
  | x, y => PyNum.float (x.toRat - y.toRat * (Int.floor (x.toRat / y.toRat) : ℤ))

/-- Python `b == 0` where `b` may be `None` (then the test is `False`). -/
def pyIsZero : Option PyNum → Bool
  | some (PyNum.int z) => z == 0
  | some (PyNum.float q) => q == 0
  | none => false

/-- Apply a binary arithmetic on two stack values; a `None` operand raises
`TypeError` as in Python. -/
def binArith (f : PyNum → PyNum → PyNum) :
    Option PyNum → Option PyNum → Except PyExc (Option PyNum)
  | some x, some y => Except.ok (some (f x y))
  | _, _ => Except.error PyExc.typeError

/-- `apply_op` from `main.py` (lines 21-46): dispatch on the operator symbol;
`/` and `%` first test `b == 0` and raise `ZeroDivisionError`; a symbol that
matches none of the five operators falls off the end and returns `None`. -/
def apply_op (a b : Option PyNum) (op : String) : Except PyExc (Option PyNum) :=
  if op = "+" then binArith pyAddV a b
  else if op = "-" then binArith pySubV a b
  else if op = "*" then binArith pyMulV a b
  else if op = "/" then
    if pyIsZero b then Except.error PyExc.zeroDivisionError
    else binArith pyDivV a b
  else if op = "%" then
    if pyIsZero b then Except.error PyExc.zeroDivisionError
    else binArith pyModV a b
  else Except.ok none

/-- Python `token.isdigit()` for ASCII tokens. -/
def strIsDigit (s : String) : Bool := !s.toList.isEmpty && s.toList.all Char.isDigit

/-- Python `token.isalnum()` for ASCII tokens. -/
def strIsAlnum (s : String) : Bool := !s.toList.isEmpty && s.toList.all Char.isAlphanum

/-- Python `int(token)` on a digit token. -/
def strToNat (s : String) : Nat :=
  s.toList.foldl (fun n c => n * 10 + (c.toNat - ('0').toNat)) 0

/-- The token-processing loop of `evaluate_postfix` (lines 59-68): digits
push their value, keys of the store push the bound value, anything else pops
`b` then `a` and pushes `apply_op a b token`.  Popping an empty list raises
`IndexError`.  The stack head is the top. -/
def evalTokens : List String → VarStore → List (Option PyNum) →
    Except PyExc (List (Option PyNum))
  | [], _, stack => Except.ok stack
  | token :: ts, vars, stack =>
    if strIsDigit token then
      evalTokens ts vars (some (PyNum.int (strToNat token : ℤ)) :: stack)
    else
      match List.lookup token vars with
      | some v => evalTokens ts vars (v :: stack)
      | none =>
        match stack with
        | b :: a :: rest =>
          match apply_op a b token with
          | Except.ok r => evalTokens ts vars (r :: rest)
          | Except.error e => Except.error e
        | _ => Except.error PyExc.indexError

/-- `evaluate_postfix` from `main.py` (lines 48-69): run the token loop on an
empty stack, then `return stack.pop()` — the top of whatever stack remains
(an `IndexError` if it is empty; extra values below the top are ignored). -/
def evaluatePostfix (exp : List String) (vars : VarStore) :
    Except PyExc (Option PyNum) :=
  match evalTokens exp vars [] with
  | Except.ok (v :: _) => Except.ok v
  | Except.ok [] => Except.error PyExc.indexError
  | Except.error e => Except.error e

/-- The single-character operator/parenthesis tokens of the tokenizer. -/
def opChars : List Char := ['+', '-', '*', '/', '(', ')', '%']

/-- Fuelled body of `tokenize` (the fuel only serves Lean's termination;
`tokenize` supplies `length` fuel, enough for the whole scan). -/
def tokenizeF : Nat → List Char → List String
  | 0, _ => []
  | _ + 1, [] => []
  | fuel + 1, c :: cs =>
    if c.isDigit then
      String.mk (c :: cs.takeWhile Char.isDigit) :: tokenizeF fuel (cs.dropWhile Char.isDigit)
    else if c.isAlpha then
      String.mk (c :: cs.takeWhile Char.isAlphanum) ::
        tokenizeF fuel (cs.dropWhile Char.isAlphanum)
    else if c ∈ opChars then
      String.mk [c] :: tokenizeF fuel cs
    else
      tokenizeF fuel cs

/-- `tokenize` from `main.py` (lines 71-104): maximal digit runs become one
token, a letter followed by alphanumerics becomes one identifier token, each
of `+ - * / ( ) %` is a one-character token, anything else is skipped. -/
def tokenize (expression : List Char) : List String :=
  tokenizeF expression.length expression

/-- `precedence` from `main.py` (lines 5-19). -/
def precedence (op : String) : Nat :=
  if op = "+" ∨ op = "-" then 1
  else if op = "*" ∨ op = "/" ∨ op = "%" then 2
  else 0

/-- The token loop of `infix_to_postfix` (lines 120-132), with the output
list and the operator stack (head = top) as state.  On `)` the code pops
until a `(` and then unconditionally pops once more to discard the `(`;
when the stack runs out without a `(`, that extra `pop()` raises
`IndexError`.  On an operator it pops while the top has precedence `≥` the
token's, then pushes the token. -/
def syLoop : List String → List String → List String →
    Except PyExc (List String × List String)
  | [], output, ops_stack => Except.ok (output, ops_stack)
  | token :: ts, output, ops_stack =>
    if strIsAlnum token then
      syLoop ts (output ++ [token]) ops_stack
    else if token = "(" then
      syLoop ts output (token :: ops_stack)
    else if token = ")" then
      match ops_stack.dropWhile (fun o => o != "(") with
      | [] => Except.error PyExc.indexError
      | _ :: rest => syLoop ts (output ++ ops_stack.takeWhile (fun o => o != "(")) rest
    else
      syLoop ts (output ++ ops_stack.takeWhile (fun o => precedence token ≤ precedence o))
        (token :: ops_stack.dropWhile (fun o => precedence token ≤ precedence o))

/-- `infix_to_postfix` from `main.py` (lines 106-137): tokenize, run the
loop, then drain the remaining operator stack into the output. -/
def infixToPostfix (expression : List Char) : Except PyExc (List String) :=
  match syLoop (tokenize expression) [] [] with
  | Except.ok (output, ops_stack) => Except.ok (output ++ ops_stack)
  | Except.error e => Except.error e

/-- `is_valid_variable_name` from `main.py` (lines 139-149):
`re.match("^[a-zA-Z][a-zA-Z0-9]*$", name)`. -/
def is_valid_variable_name (name : List Char) : Bool :=
  match name with
  | [] => false
  | c :: cs => c.isAlpha && cs.all Char.isAlphanum

/-- Python `code.split('=')`. -/
def pySplit (sep : Char) : List Char → List (List Char)
  | [] => [[]]
  | c :: cs =>
    if c = sep then [] :: pySplit sep cs
    else
      match pySplit sep cs with
      | [] => [[c]]
      | p :: ps => (c :: p) :: ps

/-- Python `s.strip()`. -/
def pyStrip (l : List Char) : List Char :=
  ((l.dropWhile Char.isWhitespace).reverse.dropWhile Char.isWhitespace).reverse

/-- The undefined-variable pre-scan of `process_code` (lines 176-179 and
200-203): the first token that is alphanumeric, not purely numeric, and not
a key of the store. -/
def firstUndef (tokens : List String) (vars : VarStore) : Option String :=
  tokens.find? (fun t => strIsAlnum t && !(strIsDigit t) && (List.lookup t vars).isNone)

/-- The result slot of a line outcome: a numeric value, or the message of an
`"Error: <message>"` string. -/
inductive LineResult where
  | val : PyNum → LineResult
  | err : String → LineResult
deriving DecidableEq, Repr

/-- `f"Line {line_num}: {msg}"`. -/
def lineMsg (line_num : Nat) (msg : String) : String :=
  "Line " ++ toString line_num ++ ": " ++ msg

/-- Everything one `process_code` call produces: the returned triple
(`varName`, `post`, `result`) plus its effects — the updated store, the
error messages appended to the session list, and the name added (if any) to
`used_vars`. -/
structure ProcOut where
  varName : Option String
  post : List String
  result : LineResult
  varsOut : VarStore
  newErrors : List String
  usedAdd : Option String
deriving DecidableEq, Repr

/-- `process_code` from `main.py` (lines 151-224).

* `'=' in code` selects the assignment path; `code.split('=')` must unpack
  into exactly two parts, otherwise the `ValueError` is caught by the outer
  generic handler (the one-part shape is unreachable when `'='` occurs).
* An invalid target raises `SyntaxError(f"Invalid variable name: {var}")`,
  caught by the outer `except SyntaxError` — note it returns `None` for the
  variable slot.
* The pre-scan returns an undefined-variable outcome with an *empty*
  postfix list.
* `infix_to_postfix` runs *outside* the inner `try`, so its `IndexError`
  reaches the outer generic handler (empty postfix, `None` variable slot).
* After a successful evaluation the store is updated and the name recorded
  in `used_vars` even when the value is `None`; the reported result is then
  `"Error: Division by zero"`.
* A `ZeroDivisionError` from evaluation is reported as `"Division by
  zero"`; any other exception from evaluation (stack underflow
  `IndexError`, `TypeError`) is reported with its `str(e)` text.
  (The `except KeyError` clause of the source is unreachable, since the
  evaluator only indexes the dict after an `in` test.) -/
def process_code (line_num : Nat) (code : List Char) (vars : VarStore) : ProcOut :=
  if '=' ∈ code then
    match pySplit '=' code with
    | [v, e] =>
      let var := pyStrip v
      let expr := pyStrip e
      if is_valid_variable_name var then
        match firstUndef (tokenize expr) vars with
        | some t =>
          { varName := some (String.mk var), post := [],
            result := LineResult.err ("Undefined variable " ++ t),
            varsOut := vars,
            newErrors := [lineMsg line_num ("Undefined variable " ++ t)],
            usedAdd := none }
        | none =>
          match infixToPostfix expr with
          | Except.error ex =>
            { varName := none, post := [], result := LineResult.err (excMsg ex),
              varsOut := vars, newErrors := [lineMsg line_num (excMsg ex)],
              usedAdd := none }
          | Except.ok postfixExpr =>
            match evaluatePostfix postfixExpr vars with
            | Except.ok value =>
              { varName := some (String.mk var), post := postfixExpr,
                result := match value with
                  | some w => LineResult.val w
                  | none => LineResult.err ("Division by zero"),
                varsOut := (String.mk var, value) :: vars,
                newErrors := [], usedAdd := some (String.mk var) }
            | Except.error PyExc.zeroDivisionError =>
              { varName := some (String.mk var), post := postfixExpr,
                result := LineResult.err ("Division by zero"),
                varsOut := vars,
                newErrors := [lineMsg line_num ("Division by zero")],
                usedAdd := none }
            | Except.error ex =>
              { varName := some (String.mk var), post := postfixExpr,
                result := LineResult.err (excMsg ex), varsOut := vars,
                newErrors := [lineMsg line_num (excMsg ex)], usedAdd := none }
      else
        { varName := none, post := [],
          result := LineResult.err ("Invalid variable name: " ++ String.mk var),
          varsOut := vars,
          newErrors := [lineMsg line_num ("Invalid variable name: " ++ String.mk var)],
          usedAdd := none }
    | _ =>
      { varName := none, post := [], result := LineResult.err (excMsg PyExc.valueError),
        varsOut := vars, newErrors := [lineMsg line_num (excMsg PyExc.valueError)],
        usedAdd := none }
  else
    match firstUndef (tokenize code) vars with
    | some t =>
      { varName := none, post := [],
        result := LineResult.err ("Undefined variable " ++ t),
        varsOut := vars,
        newErrors := [lineMsg line_num ("Undefined variable " ++ t)],
        usedAdd := none }
    | none =>
      match infixToPostfix code with
      | Except.error ex =>
        { varName := none, post := [], result := LineResult.err (excMsg ex),
          varsOut := vars, newErrors := [lineMsg line_num (excMsg ex)],
          usedAdd := none }
      | Except.ok postfixExpr =>
        match evaluatePostfix postfixExpr vars with
        | Except.ok value =>
          { varName := none, post := postfixExpr,
            result := match value with
              | some w => LineResult.val w
              | none => LineResult.err ("Division by zero"),
            varsOut := vars, newErrors := [], usedAdd := none }
        | Except.error PyExc.zeroDivisionError =>
          { varName := none, post := postfixExpr,
            result := LineResult.err ("Division by zero"), varsOut := vars,
            newErrors := [lineMsg line_num ("Division by zero")], usedAdd := none }
        | Except.error ex =>
          { varName := none, post := postfixExpr,
            result := LineResult.err (excMsg ex), varsOut := vars,
            newErrors := [lineMsg line_num (excMsg ex)], usedAdd := none }

/-- Accumulated state of one session run (`on_process`, lines 238-252):
the per-line outcomes, the store, the error list and the used-variable set
(modelled as a duplicate-free list). -/
structure SessionOut where
  outs : List ProcOut
  vars : VarStore
  errors : List String
  used : List String
deriving DecidableEq, Repr

/-- The line loop of `on_process` (lines 246-252): 1-based numbering over
*all* lines, each line stripped, blank lines skipped, and the store, error
list and used-set threaded through. -/
def processLines : Nat → List (List Char) → VarStore → List String → List String → SessionOut
  | _, [], vars, errors, used => ⟨[], vars, errors, used⟩
  | i, l :: ls, vars, errors, used =>
    let line := pyStrip l
    if line.isEmpty then processLines (i + 1) ls vars errors used
    else
      let r := process_code i line vars
      let rest := processLines (i + 1) ls r.varsOut (errors ++ r.newErrors)
        (match r.usedAdd with
         | some v => if v ∈ used then used else used ++ [v]
         | none => used)
      ⟨r :: rest.outs, rest.vars, rest.errors, rest.used⟩

/-- One whole session over the given lines, from a fresh store (lines
238-249 of `main.py`). -/
def runSession (lines : List (List Char)) : SessionOut :=
  processLines 1 lines [] [] []

/-- Convenience: the character list of a string literal. -/
def toChars (s : String) : List Char := s.toList

/-!
## Reference grammar and semantics for claim C1

C1 quantifies over "balanced infix expressions using only integer literals,
the operators `+ - * /`, and parentheses" and compares the pipeline against
"standard precedence-respecting, left-associative arithmetic".  The
following definitions state that reference meaning: an abstract syntax
tree, the unambiguous layered grammar (expressions / terms / factors) that
assigns a tree to a token sequence, and its arithmetic value.
-/

/-- Abstract syntax of the C1 expressions.  A leaf keeps its source digit
token (so `"007"` and `"7"` stay distinct token sequences). -/
inductive AST where
  | num : String → AST
  | add : AST → AST → AST
  | sub : AST → AST → AST
  | mul : AST → AST → AST
  | div : AST → AST → AST
deriving DecidableEq, Repr

/-- The postfix token sequence of a tree (operands then operator). -/
def postA : AST → List String
  | AST.num t => [t]
  | AST.add a b => postA a ++ postA b ++ ["+"]
  | AST.sub a b => postA a ++ postA b ++ ["-"]
  | AST.mul a b => postA a ++ postA b ++ ["*"]
  | AST.div a b => postA a ++ postA b ++ ["/"]

/-- The layered left-associative grammar of C1, as a parse relation:
`Parses 1 ts a` — `ts` is a sum of terms with tree `a` (level of `+ -`);
`Parses 2 ts a` — `ts` is a product of factors (level of `* /`);
`Parses 3 ts a` — `ts` is a factor: a digit literal or a parenthesised
expression.  The left operand of each binary rule sits at the operator's
own level, the right operand one level deeper: left-associativity. -/
inductive Parses : Nat → List String → AST → Prop where
  | num : ∀ t, strIsDigit t = true → Parses 3 [t] (AST.num t)
  | paren : ∀ {ts a}, Parses 1 ts a → Parses 3 ("(" :: ts ++ [")"]) a
  | factor : ∀ {ts a}, Parses 3 ts a → Parses 2 ts a
  | term : ∀ {ts a}, Parses 2 ts a → Parses 1 ts a
  | mul : ∀ {ts us a b}, Parses 2 ts a → Parses 3 us b →
      Parses 2 (ts ++ "*" :: us) (AST.mul a b)
  | div : ∀ {ts us a b}, Parses 2 ts a → Parses 3 us b →
      Parses 2 (ts ++ "/" :: us) (AST.div a b)
  | add : ∀ {ts us a b}, Parses 1 ts a → Parses 2 us b →
      Parses 1 (ts ++ "+" :: us) (AST.add a b)
  | sub : ∀ {ts us a b}, Parses 1 ts a → Parses 2 us b →
      Parses 1 (ts ++ "-" :: us) (AST.sub a b)

/-- Reference value of a tree in exact arithmetic; `none` on division by
zero. -/
def astEval : AST → Option ℚ
  | AST.num t => some ((strToNat t : ℚ))
  | AST.add a b =>
    match astEval a, astEval b with
    | some x, some y => some (x + y)
    | _, _ => none
  | AST.sub a b =>
    match astEval a, astEval b with
    | some x, some y => some (x - y)
    | _, _ => none
  | AST.mul a b =>
    match astEval a, astEval b with
    | some x, some y => some (x * y)
    | _, _ => none
  | AST.div a b =>
    match astEval a, astEval b with
    | some x, some y => if y = 0 then none else some (x / y)
    | _, _ => none

/-- Value of a tree under the evaluator's own `PyNum` arithmetic. -/
def astEvalPy : AST → Option PyNum
  | AST.num t => some (PyNum.int (strToNat t : ℤ))
  | AST.add a b =>
    match astEvalPy a, astEvalPy b with
    | some x, some y => some (pyAddV x y)
    | _, _ => none
  | AST.sub a b =>
    match astEvalPy a, astEvalPy b with
    | some x, some y => some (pySubV x y)
    | _, _ => none
  | AST.mul a b =>
    match astEvalPy a, astEvalPy b with
    | some x, some y => some (pyMulV x y)
    | _, _ => none
  | AST.div a b =>
    match astEvalPy a, astEvalPy b with
    | some x, some y => if pyIsZero (some y) then none else some (pyDivV x y)
    | _, _ => none

/-- All numeric leaves of a tree are digit tokens. -/
def astWf : AST → Bool
  | AST.num t => strIsDigit t
  | AST.add a b => astWf a && astWf b
  | AST.sub a b => astWf a && astWf b
  | AST.mul a b => astWf a && astWf b
  | AST.div a b => astWf a && astWf b

/-- Precedence of the operator on top of the stack (`0` when empty, which
is also the precedence of `(`). -/
def headPrec : List String → Nat
  | [] => 0
  | o :: _ => precedence o

/-- Invariant of the shunting-yard loop for a phrase of grammar level
`lvl`: started on any stack whose top binds looser than `lvl`, the loop
succeeds, extends the output by some `fp`, leaves some operators `pend` of
precedence at least `lvl` on top of the untouched stack, and
`fp ++ pend` is the phrase's postfix sequence. -/
def SYGood (lvl : Nat) (ts : List String) (a : AST) : Prop :=
  ∀ out ops, headPrec ops < lvl →
    ∃ fp pend, syLoop ts out ops = Except.ok (out ++ fp, pend ++ ops) ∧
      fp ++ pend = postA a ∧ ∀ o ∈ pend, lvl ≤ precedence o ∧ precedence o ≤ 2

/-- The store binds none of the four operator symbols of C1's expressions
(`evaluate_postfix` looks every non-digit token up in the store before
treating it as an operator, so such a binding would hijack the operator). -/
def opFree (vars : VarStore) : Prop :=
  List.lookup ("+") vars = none ∧ List.lookup ("-") vars = none ∧
    List.lookup ("*") vars = none ∧ List.lookup ("/") vars = none

/-!
## Helper lemmas
-/

theorem takeWhile_split {p : String → Bool} {l1 l2 : List String}
    (h1 : ∀ o ∈ l1, p o = true)
    (h2 : ∀ x xs, l2 = x :: xs → p x = false) :
    (l1 ++ l2).takeWhile p = l1 ∧ (l1 ++ l2).dropWhile p = l2 := by
  induction l1 with
  | nil =>
    simp only [List.nil_append]
    cases l2 with
    | nil => simp
    | cons x xs =>
      have hx : p x = false := h2 x xs rfl
      simp [List.takeWhile_cons, List.dropWhile_cons, hx]
  | cons a l ih =>
    have ha : p a = true := h1 a (by simp)
    have hrec := ih (fun o ho => h1 o (by simp [ho]))
    simp [List.takeWhile_cons, List.dropWhile_cons, ha, hrec.1, hrec.2]

theorem syLoop_append_ok {ts us out ops out2 ops2}
    (h : syLoop ts out ops = Except.ok (out2, ops2)) :
    syLoop (ts ++ us) out ops = syLoop us out2 ops2 := by
  induction ts generalizing out ops with
  | nil =>
    simp only [syLoop, Except.ok.injEq, Prod.mk.injEq] at h
    obtain ⟨h1, h2⟩ := h
    subst h1
    subst h2
    simp
  | cons t ts ih =>
    rw [List.cons_append]
    simp only [syLoop] at h ⊢
    by_cases h1 : strIsAlnum t = true
    · rw [if_pos h1] at h ⊢
      exact ih h
    · rw [if_neg h1] at h ⊢
      by_cases h2 : t = "("
      · rw [if_pos h2] at h ⊢
        exact ih h
      · rw [if_neg h2] at h ⊢
        by_cases h3 : t = ")"
        · rw [if_pos h3] at h ⊢
          cases hd : List.dropWhile (fun o => o != "(") ops with
          | nil =>
            simp only [hd] at h
            exact absurd h (by simp)
          | cons x rest =>
            simp only [hd] at h ⊢
            exact ih h
        · rw [if_neg h3] at h ⊢
          exact ih h

theorem evalTokens_append {ts us : List String} {vars : VarStore}
    {st st2 : List (Option PyNum)}
    (h : evalTokens ts vars st = Except.ok st2) :
    evalTokens (ts ++ us) vars st = evalTokens us vars st2 := by
  induction ts generalizing st with
  | nil =>
    simp only [evalTokens, Except.ok.injEq] at h
    subst h
    simp
  | cons t ts ih =>
    rw [List.cons_append]
    simp only [evalTokens] at h ⊢
    by_cases h1 : strIsDigit t = true
    · rw [if_pos h1] at h ⊢
      exact ih h
    · rw [if_neg h1] at h ⊢
      cases hl : List.lookup t vars with
      | some v =>
        simp only [hl] at h ⊢
        exact ih h
      | none =>
        simp only [hl] at h ⊢
        cases st with
        | nil => simp at h
        | cons b rest1 =>
          cases rest1 with
          | nil => simp at h
          | cons a rest =>
            cases hap : apply_op a b t with
            | ok r =>
              simp only [hap] at h ⊢
              exact ih h
            | error e =>
              simp only [hap] at h
              exact absurd h (by simp)

theorem strIsAlnum_of_strIsDigit {t : String} (h : strIsDigit t = true) :
    strIsAlnum t = true := by
  simp only [strIsDigit, strIsAlnum, Bool.and_eq_true, List.all_eq_true] at h ⊢
  refine ⟨h.1, fun c hc => ?_⟩
  have hd := h.2 c hc
  simp [Char.isAlphanum, hd]

theorem parses_astWf {lvl ts a} (h : Parses lvl ts a) : astWf a = true := by
  induction h with
  | num t ht => simpa [astWf] using ht
  | paren _ ih => exact ih
  | factor _ ih => exact ih
  | term _ ih => exact ih
  | mul _ _ ih1 ih2 => simp [astWf, ih1, ih2]
  | div _ _ ih1 ih2 => simp [astWf, ih1, ih2]
  | add _ _ ih1 ih2 => simp [astWf, ih1, ih2]
  | sub _ _ ih1 ih2 => simp [astWf, ih1, ih2]

theorem toRat_pyAddV (x y : PyNum) : (pyAddV x y).toRat = x.toRat + y.toRat := by
  cases x <;> cases y <;>
    first
      | rfl
      | (simp only [pyAddV, PyNum.toRat]; push_cast; ring)

theorem toRat_pySubV (x y : PyNum) : (pySubV x y).toRat = x.toRat - y.toRat := by
  cases x <;> cases y <;>
    first
      | rfl
      | (simp only [pySubV, PyNum.toRat]; push_cast; ring)

theorem toRat_pyMulV (x y : PyNum) : (pyMulV x y).toRat = x.toRat * y.toRat := by
  cases x <;> cases y <;>
    first
      | rfl
      | (simp only [pyMulV, PyNum.toRat]; push_cast; ring)

theorem pyIsZero_false_of_ne {y : PyNum} (h : y.toRat ≠ 0) :
    pyIsZero (some y) = false := by
  cases y with
  | int z =>
    simp only [PyNum.toRat, ne_eq, Int.cast_eq_zero] at h
    simp [pyIsZero, h]
  | float q =>
    simp only [PyNum.toRat] at h
    simp [pyIsZero, h]

theorem astEvalPy_of_astEval {a : AST} {q : ℚ} (h : astEval a = some q) :
    ∃ v, astEvalPy a = some v ∧ v.toRat = q := by
  induction a generalizing q with
  | num t =>
    refine ⟨PyNum.int (strToNat t : ℤ), rfl, ?_⟩
    simp only [astEval, Option.some.injEq] at h
    subst h
    simp [PyNum.toRat]
  | add a b iha ihb =>
    cases ha : astEval a with
    | none =>
      simp only [astEval, ha] at h
      exact Option.noConfusion h
    | some x =>
      cases hb : astEval b with
      | none =>
        simp only [astEval, ha, hb] at h
        exact Option.noConfusion h
      | some y =>
        simp only [astEval, ha, hb, Option.some.injEq] at h
        obtain ⟨vx, hvx, hx⟩ := iha ha
        obtain ⟨vy, hvy, hy⟩ := ihb hb
        refine ⟨pyAddV vx vy, ?_, ?_⟩
        · simp only [astEvalPy, hvx, hvy]
        · rw [toRat_pyAddV, hx, hy, h]
  | sub a b iha ihb =>
    cases ha : astEval a with
    | none =>
      simp only [astEval, ha] at h
      exact Option.noConfusion h
    | some x =>
      cases hb : astEval b with
      | none =>
        simp only [astEval, ha, hb] at h
        exact Option.noConfusion h
      | some y =>
        simp only [astEval, ha, hb, Option.some.injEq] at h
        obtain ⟨vx, hvx, hx⟩ := iha ha
        obtain ⟨vy, hvy, hy⟩ := ihb hb
        refine ⟨pySubV vx vy, ?_, ?_⟩
        · simp only [astEvalPy, hvx, hvy]
        · rw [toRat_pySubV, hx, hy, h]
  | mul a b iha ihb =>
    cases ha : astEval a with
    | none =>
      simp only [astEval, ha] at h
      exact Option.noConfusion h
    | some x =>
      cases hb : astEval b with
      | none =>
        simp only [astEval, ha, hb] at h
        exact Option.noConfusion h
      | some y =>
        simp only [astEval, ha, hb, Option.some.injEq] at h
        obtain ⟨vx, hvx, hx⟩ := iha ha
        obtain ⟨vy, hvy, hy⟩ := ihb hb
        refine ⟨pyMulV vx vy, ?_, ?_⟩
        · simp only [astEvalPy, hvx, hvy]
        · rw [toRat_pyMulV, hx, hy, h]
  | div a b iha ihb =>
    cases ha : astEval a with
    | none =>
      simp only [astEval, ha] at h
      exact Option.noConfusion h
    | some x =>
      cases hb : astEval b with
      | none =>
        simp only [astEval, ha, hb] at h
        exact Option.noConfusion h
      | some y =>
        simp only [astEval, ha, hb] at h
        by_cases hy0 : y = 0
        · rw [if_pos hy0] at h
          exact absurd h (by simp)
        · rw [if_neg hy0] at h
          simp only [Option.some.injEq] at h
          obtain ⟨vx, hvx, hx⟩ := iha ha
          obtain ⟨vy, hvy, hy⟩ := ihb hb
          have hz : pyIsZero (some vy) = false := pyIsZero_false_of_ne (by rw [hy]; exact hy0)
          refine ⟨pyDivV vx vy, ?_, ?_⟩
          · simp only [astEvalPy, hvx, hvy]
            rw [if_neg (by simp [hz])]
          · have hdiv : (pyDivV vx vy).toRat = vx.toRat / vy.toRat := rfl
            rw [hdiv, hx, hy, h]

theorem bne_lparen_of_prec {o : String} (h : 1 ≤ precedence o) : (o != "(") = true := by
  rw [bne_iff_ne]
  intro he
  have h0 : precedence ("(") = 0 := rfl
  rw [he, h0] at h
  omega

theorem strIsAlnum_lparen : strIsAlnum ("(") = false := rfl

theorem strIsAlnum_rparen : strIsAlnum (")") = false := rfl

theorem strIsAlnum_plus : strIsAlnum ("+") = false := rfl

theorem strIsAlnum_minus : strIsAlnum ("-") = false := rfl

theorem strIsAlnum_star : strIsAlnum ("*") = false := rfl

theorem strIsAlnum_slash : strIsAlnum ("/") = false := rfl

theorem parses_syGood {lvl : Nat} {ts : List String} {a : AST}
    (h : Parses lvl ts a) : SYGood lvl ts a := by
  induction h with
  | num t ht =>
    intro out ops _
    refine ⟨[t], [], ?_, by simp [postA], by simp⟩
    have halnum : strIsAlnum t = true := strIsAlnum_of_strIsDigit ht
    simp [syLoop, halnum]
  | @paren ts a hE ih =>
    intro out ops _
    obtain ⟨fp, pend, hrun, hpost, helem⟩ := ih out ("(" :: ops)
      (by simp only [headPrec]; decide)
    have step1 : syLoop ("(" :: ts ++ [")"]) out ops = syLoop (ts ++ [")"]) out ("(" :: ops) := by
      simp [syLoop, strIsAlnum_lparen]
    have h1arg : ∀ o ∈ pend, (o != "(") = true := by
      intro o ho
      exact bne_lparen_of_prec (helem o ho).1
    have h2arg : ∀ x xs, ("(" :: ops : List String) = x :: xs → (x != "(") = false := by
      intro x xs he
      injection he with hx _
      subst hx
      decide
    obtain ⟨htake, hdrop⟩ := takeWhile_split h1arg h2arg
    refine ⟨postA a, [], ?_, by simp, by simp⟩
    rw [step1, syLoop_append_ok hrun]
    simp [syLoop, strIsAlnum_rparen, hdrop, htake, hpost, List.append_assoc]
  | @factor ts a _ ih =>
    intro out ops hlt
    obtain ⟨fp, pend, hrun, hpost, helem⟩ := ih out ops (by omega)
    exact ⟨fp, pend, hrun, hpost, fun o ho =>
      ⟨by have := (helem o ho).1; omega, (helem o ho).2⟩⟩
  | @term ts a _ ih =>
    intro out ops hlt
    obtain ⟨fp, pend, hrun, hpost, helem⟩ := ih out ops (by omega)
    exact ⟨fp, pend, hrun, hpost, fun o ho =>
      ⟨by have := (helem o ho).1; omega, (helem o ho).2⟩⟩
  | @mul ts us a b hT hF ihT ihF =>
    intro out ops hlt
    obtain ⟨fp1, pend1, hrun1, hpost1, helem1⟩ := ihT out ops hlt
    have h1arg : ∀ o ∈ pend1, decide (precedence ("*") ≤ precedence o) = true := by
      intro o ho
      have hp := (helem1 o ho).1
      have hs : precedence ("*") = 2 := rfl
      simp only [decide_eq_true_eq, hs]
      exact hp
    have h2arg : ∀ x xs, ops = x :: xs → decide (precedence ("*") ≤ precedence x) = false := by
      intro x xs he
      have hs : precedence ("*") = 2 := rfl
      rw [he] at hlt
      simp only [headPrec] at hlt
      simp only [decide_eq_false_iff_not, hs]
      omega
    obtain ⟨htake, hdrop⟩ := takeWhile_split h1arg h2arg
    obtain ⟨fp2, pend2, hrun2, hpost2, helem2⟩ :=
      ihF (out ++ fp1 ++ pend1) ("*" :: ops) (by simp only [headPrec]; decide)
    have hpend2 : pend2 = [] := by
      cases pend2 with
      | nil => rfl
      | cons x xs =>
        have := helem2 x (by simp)
        omega
    subst hpend2
    have hfp2 : fp2 = postA b := by simpa using hpost2
    have step : syLoop ("*" :: us) (out ++ fp1) (pend1 ++ ops)
        = syLoop us (out ++ fp1 ++ pend1) ("*" :: ops) := by
      simp [syLoop, strIsAlnum_star, htake, hdrop]
    refine ⟨fp1 ++ pend1 ++ fp2, ["*"], ?_, ?_, ?_⟩
    · rw [syLoop_append_ok hrun1, step, hrun2]
      simp [List.append_assoc]
    · simp [postA, ← hpost1, hfp2, List.append_assoc]
    · intro o ho
      simp only [List.mem_singleton] at ho
      subst ho
      decide
  | @div ts us a b hT hF ihT ihF =>
    intro out ops hlt
    obtain ⟨fp1, pend1, hrun1, hpost1, helem1⟩ := ihT out ops hlt
    have h1arg : ∀ o ∈ pend1, decide (precedence ("/") ≤ precedence o) = true := by
      intro o ho
      have hp := (helem1 o ho).1
      have hs : precedence ("/") = 2 := rfl
      simp only [decide_eq_true_eq, hs]
      exact hp
    have h2arg : ∀ x xs, ops = x :: xs → decide (precedence ("/") ≤ precedence x) = false := by
      intro x xs he
      have hs : precedence ("/") = 2 := rfl
      rw [he] at hlt
      simp only [headPrec] at hlt
      simp only [decide_eq_false_iff_not, hs]
      omega
    obtain ⟨htake, hdrop⟩ := takeWhile_split h1arg h2arg
    obtain ⟨fp2, pend2, hrun2, hpost2, helem2⟩ :=
      ihF (out ++ fp1 ++ pend1) ("/" :: ops) (by simp only [headPrec]; decide)
    have hpend2 : pend2 = [] := by
      cases pend2 with
      | nil => rfl
      | cons x xs =>
        have := helem2 x (by simp)
        omega
    subst hpend2
    have hfp2 : fp2 = postA b := by simpa using hpost2
    have step : syLoop ("/" :: us) (out ++ fp1) (pend1 ++ ops)
        = syLoop us (out ++ fp1 ++ pend1) ("/" :: ops) := by
      simp [syLoop, strIsAlnum_slash, htake, hdrop]
    refine ⟨fp1 ++ pend1 ++ fp2, ["/"], ?_, ?_, ?_⟩
    · rw [syLoop_append_ok hrun1, step, hrun2]
      simp [List.append_assoc]
    · simp [postA, ← hpost1, hfp2, List.append_assoc]
    · intro o ho
      simp only [List.mem_singleton] at ho
      subst ho
      decide
  | @add ts us a b hE hT ihE ihT =>
    intro out ops hlt
    obtain ⟨fp1, pend1, hrun1, hpost1, helem1⟩ := ihE out ops hlt
    have h1arg : ∀ o ∈ pend1, decide (precedence ("+") ≤ precedence o) = true := by
      intro o ho
      have hp := (helem1 o ho).1
      have hs : precedence ("+") = 1 := rfl
      simp only [decide_eq_true_eq, hs]
      exact hp
    have h2arg : ∀ x xs, ops = x :: xs → decide (precedence ("+") ≤ precedence x) = false := by
      intro x xs he
      have hs : precedence ("+") = 1 := rfl
      rw [he] at hlt
      simp only [headPrec] at hlt
      simp only [decide_eq_false_iff_not, hs]
      omega
    obtain ⟨htake, hdrop⟩ := takeWhile_split h1arg h2arg
    obtain ⟨fp2, pend2, hrun2, hpost2, helem2⟩ :=
      ihT (out ++ fp1 ++ pend1) ("+" :: ops) (by simp only [headPrec]; decide)
    have step : syLoop ("+" :: us) (out ++ fp1) (pend1 ++ ops)
        = syLoop us (out ++ fp1 ++ pend1) ("+" :: ops) := by
      simp [syLoop, strIsAlnum_plus, htake, hdrop]
    refine ⟨fp1 ++ pend1 ++ fp2, pend2 ++ ["+"], ?_, ?_, ?_⟩
    · rw [syLoop_append_ok hrun1, step, hrun2]
      simp [List.append_assoc]
    · simp only [postA, ← hpost1, ← hpost2]
      simp [List.append_assoc]
    · intro o ho
      rcases List.mem_append.mp ho with hm | hm
      · have := helem2 o hm
        exact ⟨by omega, this.2⟩
      · simp only [List.mem_singleton] at hm
        subst hm
        decide
  | @sub ts us a b hE hT ihE ihT =>
    intro out ops hlt
    obtain ⟨fp1, pend1, hrun1, hpost1, helem1⟩ := ihE out ops hlt
    have h1arg : ∀ o ∈ pend1, decide (precedence ("-") ≤ precedence o) = true := by
      intro o ho
      have hp := (helem1 o ho).1
      have hs : precedence ("-") = 1 := rfl
      simp only [decide_eq_true_eq, hs]
      exact hp
    have h2arg : ∀ x xs, ops = x :: xs → decide (precedence ("-") ≤ precedence x) = false := by
      intro x xs he
      have hs : precedence ("-") = 1 := rfl
      rw [he] at hlt
      simp only [headPrec] at hlt
      simp only [decide_eq_false_iff_not, hs]
      omega
    obtain ⟨htake, hdrop⟩ := takeWhile_split h1arg h2arg
    obtain ⟨fp2, pend2, hrun2, hpost2, helem2⟩ :=
      ihT (out ++ fp1 ++ pend1) ("-" :: ops) (by simp only [headPrec]; decide)
    have step : syLoop ("-" :: us) (out ++ fp1) (pend1 ++ ops)
        = syLoop us (out ++ fp1 ++ pend1) ("-" :: ops) := by
      simp [syLoop, strIsAlnum_minus, htake, hdrop]
    refine ⟨fp1 ++ pend1 ++ fp2, pend2 ++ ["-"], ?_, ?_, ?_⟩
    · rw [syLoop_append_ok hrun1, step, hrun2]
      simp [List.append_assoc]
    · simp only [postA, ← hpost1, ← hpost2]
      simp [List.append_assoc]
    · intro o ho
      rcases List.mem_append.mp ho with hm | hm
      · have := helem2 o hm
        exact ⟨by omega, this.2⟩
      · simp only [List.mem_singleton] at hm
        subst hm
        decide

theorem strIsDigit_plus : strIsDigit ("+") = false := rfl

theorem strIsDigit_minus : strIsDigit ("-") = false := rfl

theorem strIsDigit_star : strIsDigit ("*") = false := rfl

theorem strIsDigit_slash : strIsDigit ("/") = false := rfl

theorem evalTokens_postA {vars : VarStore} (hfree : opFree vars) :
    ∀ (a : AST) (v : PyNum), astWf a = true → astEvalPy a = some v →
      ∀ st, evalTokens (postA a) vars st = Except.ok (some v :: st) := by
  intro a
  induction a with
  | num t =>
    intro v hwf hv st
    have ht : strIsDigit t = true := by simpa [astWf] using hwf
    have hv2 : PyNum.int (strToNat t : ℤ) = v := by simpa [astEvalPy] using hv
    subst hv2
    simp [postA, evalTokens, ht]
  | add a b iha ihb =>
    intro v hwf hv st
    simp only [astWf, Bool.and_eq_true] at hwf
    cases ha : astEvalPy a with
    | none =>
      simp only [astEvalPy, ha] at hv
      exact Option.noConfusion hv
    | some x =>
      cases hb : astEvalPy b with
      | none =>
        simp only [astEvalPy, ha, hb] at hv
        exact Option.noConfusion hv
      | some y =>
        simp only [astEvalPy, ha, hb, Option.some.injEq] at hv
        subst hv
        have e1 := iha x hwf.1 ha st
        have e2 := ihb y hwf.2 hb (some x :: st)
        have hsh : postA (AST.add a b) = postA a ++ (postA b ++ ["+"]) := by
          simp [postA, List.append_assoc]
        have happ : apply_op (some x) (some y) ("+") = Except.ok (some (pyAddV x y)) := rfl
        rw [hsh, evalTokens_append e1, evalTokens_append e2]
        simp [evalTokens, strIsDigit_plus, hfree.1, happ]
  | sub a b iha ihb =>
    intro v hwf hv st
    simp only [astWf, Bool.and_eq_true] at hwf
    cases ha : astEvalPy a with
    | none =>
      simp only [astEvalPy, ha] at hv
      exact Option.noConfusion hv
    | some x =>
      cases hb : astEvalPy b with
      | none =>
        simp only [astEvalPy, ha, hb] at hv
        exact Option.noConfusion hv
      | some y =>
        simp only [astEvalPy, ha, hb, Option.some.injEq] at hv
        subst hv
        have e1 := iha x hwf.1 ha st
        have e2 := ihb y hwf.2 hb (some x :: st)
        have hsh : postA (AST.sub a b) = postA a ++ (postA b ++ ["-"]) := by
          simp [postA, List.append_assoc]
        have happ : apply_op (some x) (some y) ("-") = Except.ok (some (pySubV x y)) := rfl
        rw [hsh, evalTokens_append e1, evalTokens_append e2]
        simp [evalTokens, strIsDigit_minus, hfree.2.1, happ]
  | mul a b iha ihb =>
    intro v hwf hv st
    simp only [astWf, Bool.and_eq_true] at hwf
    cases ha : astEvalPy a with
    | none =>
      simp only [astEvalPy, ha] at hv
      exact Option.noConfusion hv
    | some x =>
      cases hb : astEvalPy b with
      | none =>
        simp only [astEvalPy, ha, hb] at hv
        exact Option.noConfusion hv
      | some y =>
        simp only [astEvalPy, ha, hb, Option.some.injEq] at hv
        subst hv
        have e1 := iha x hwf.1 ha st
        have e2 := ihb y hwf.2 hb (some x :: st)
        have hsh : postA (AST.mul a b) = postA a ++ (postA b ++ ["*"]) := by
          simp [postA, List.append_assoc]
        have happ : apply_op (some x) (some y) ("*") = Except.ok (some (pyMulV x y)) := rfl
        rw [hsh, evalTokens_append e1, evalTokens_append e2]
        simp [evalTokens, strIsDigit_star, hfree.2.2.1, happ]
  | div a b iha ihb =>
    intro v hwf hv st
    simp only [astWf, Bool.and_eq_true] at hwf
    cases ha : astEvalPy a with
    | none =>
      simp only [astEvalPy, ha] at hv
      exact Option.noConfusion hv
    | some x =>
      cases hb : astEvalPy b with
      | none =>
        simp only [astEvalPy, ha, hb] at hv
        exact Option.noConfusion hv
      | some y =>
        simp only [astEvalPy, ha, hb] at hv
        by_cases hz : pyIsZero (some y) = true
        · rw [if_pos hz] at hv
          exact Option.noConfusion hv
        · rw [if_neg hz] at hv
          simp only [Option.some.injEq] at hv
          subst hv
          have hz2 : pyIsZero (some y) = false := by
            cases hb2 : pyIsZero (some y) with
            | true => exact absurd hb2 hz
            | false => rfl
          have e1 := iha x hwf.1 ha st
          have e2 := ihb y hwf.2 hb (some x :: st)
          have hsh : postA (AST.div a b) = postA a ++ (postA b ++ ["/"]) := by
            simp [postA, List.append_assoc]
          have happ : apply_op (some x) (some y) ("/") = Except.ok (some (pyDivV x y)) := by
            simp [apply_op, binArith, hz2]
          rw [hsh, evalTokens_append e1, evalTokens_append e2]
          simp [evalTokens, strIsDigit_slash, hfree.2.2.2, happ]

theorem pySplit_ne_nil (c : Char) (l : List Char) : pySplit c l ≠ [] := by
  induction l with
  | nil => simp [pySplit]
  | cons x xs ih =>
    simp only [pySplit]
    by_cases hx : x = c
    · simp [hx]
    · rw [if_neg hx]
      cases h : pySplit c xs with
      | nil => simp
      | cons p ps => simp

theorem mem_of_pySplit_length {c : Char} {l : List Char}
    (h : 2 ≤ (pySplit c l).length) : c ∈ l := by
  induction l with
  | nil => simp [pySplit] at h
  | cons x xs ih =>
    simp only [pySplit] at h
    by_cases hx : x = c
    · subst hx
      exact List.mem_cons_self x xs
    · rw [if_neg hx] at h
      cases hs : pySplit c xs with
      | nil => exact absurd hs (pySplit_ne_nil c xs)
      | cons p ps =>
        rw [hs] at h
        simp only [List.length_cons] at h
        refine List.mem_cons_of_mem x (ih ?_)
        rw [hs]
        simp only [List.length_cons]
        omega

theorem pySplit_length (c : Char) (l : List Char) :
    (pySplit c l).length = l.count c + 1 := by
  induction l with
  | nil => simp [pySplit]
  | cons x xs ih =>
    simp only [pySplit]
    by_cases hx : x = c
    · rw [if_pos hx]
      simp only [List.length_cons, ih, List.count_cons]
      simp [hx]
    · rw [if_neg hx]
      cases hs : pySplit c xs with
      | nil => exact absurd hs (pySplit_ne_nil c xs)
      | cons p ps =>
        rw [hs] at ih
        simp only [List.length_cons] at ih ⊢
        simp [List.count_cons, hx, ih]

/-!
## Claim theorems
-/

/-- C7: for every assignment line (a single `=`) whose trimmed left part is
empty or fails the `^[A-Za-z][A-Za-z0-9]*$` pattern, `process_code` reports
the invalid-variable-name fault before tokenizing, converting or evaluating
the right-hand side: the outcome has an empty postfix sequence, a
line-numbered message is appended, and the store is unchanged. -/
theorem C7_invalid_name (n : Nat) (code v e : List Char) (vars : VarStore)
    (hsplit : pySplit '=' code = [v, e])
    (hvalid : is_valid_variable_name (pyStrip v) = false) :
    process_code n code vars =
      { varName := none, post := [],
        result := LineResult.err ("Invalid variable name: " ++ String.mk (pyStrip v)),
        varsOut := vars,
        newErrors := [lineMsg n ("Invalid variable name: " ++ String.mk (pyStrip v))],
        usedAdd := none } := by
  have hmem : '=' ∈ code := mem_of_pySplit_length (by rw [hsplit]; simp)
  simp only [process_code]
  rw [if_pos hmem]
  simp only [hsplit]
  simp [hvalid]

/-- C7 witness: the line `1x = 2` at line 1 with an empty store. -/
theorem C7_invalid_name_witness :
    process_code 1 (toChars ("1x = 2")) [] =
      { varName := none, post := [],
        result := LineResult.err ("Invalid variable name: 1x"),
        varsOut := [],
        newErrors := [lineMsg 1 ("Invalid variable name: 1x")],
        usedAdd := none } := by
  have h := C7_invalid_name 1 (toChars ("1x = 2")) (toChars ("1x ")) (toChars (" 2")) []
    (by decide) (by decide)
  simpa using h

/-- C2: `/` and `%` with a zero right operand raise the division-by-zero
fault in `apply_op`; on any line (assignment or bare expression) whose
evaluation raises it, `process_code` reports the result
`"Error: Division by zero"`, appends the line-numbered `"Division by zero"`
message, and leaves the store unchanged — in particular an assignment
target stays unbound.  (The fault is always caught: `process_code` is a
total function in this embedding.) -/
theorem C2_division_by_zero :
    (∀ (a b : Option PyNum), pyIsZero b = true →
      apply_op a b ("/") = Except.error PyExc.zeroDivisionError ∧
      apply_op a b ("%") = Except.error PyExc.zeroDivisionError) ∧
    (∀ (n : Nat) (code v e : List Char) (vars : VarStore) (post : List String),
      pySplit '=' code = [v, e] →
      is_valid_variable_name (pyStrip v) = true →
      firstUndef (tokenize (pyStrip e)) vars = none →
      infixToPostfix (pyStrip e) = Except.ok post →
      evaluatePostfix post vars = Except.error PyExc.zeroDivisionError →
      process_code n code vars =
        { varName := some (String.mk (pyStrip v)), post := post,
          result := LineResult.err ("Division by zero"), varsOut := vars,
          newErrors := [lineMsg n ("Division by zero")], usedAdd := none }) ∧
    (∀ (n : Nat) (code : List Char) (vars : VarStore) (post : List String),
      '=' ∉ code →
      firstUndef (tokenize code) vars = none →
      infixToPostfix code = Except.ok post →
      evaluatePostfix post vars = Except.error PyExc.zeroDivisionError →
      process_code n code vars =
        { varName := none, post := post,
          result := LineResult.err ("Division by zero"), varsOut := vars,
          newErrors := [lineMsg n ("Division by zero")], usedAdd := none }) := by
  refine ⟨?_, ?_, ?_⟩
  · intro a b hz
    constructor <;> simp [apply_op, hz]
  · intro n code v e vars post hsplit hvalid hundef hpost heval
    have hmem : '=' ∈ code := mem_of_pySplit_length (by rw [hsplit]; simp)
    simp only [process_code]
    rw [if_pos hmem]
    simp only [hsplit]
    simp [hvalid, hundef, hpost, heval]
  · intro n code vars post hmem hundef hpost heval
    simp only [process_code]
    rw [if_neg hmem]
    simp [hundef, hpost, heval]

/-- C2 witness: `y = 4 / 0` on line 1 with an empty store — postfix
`4 0 /`, result `"Error: Division by zero"`, the line-numbered message, and
`y` left unbound. -/
theorem C2_division_by_zero_witness :
    process_code 1 (toChars ("y = 4 / 0")) [] =
      { varName := some ("y"), post := ["4", "0", "/"],
        result := LineResult.err ("Division by zero"), varsOut := [],
        newErrors := [lineMsg 1 ("Division by zero")], usedAdd := none } := by
  have h := C2_division_by_zero.2.1 1 (toChars ("y = 4 / 0")) (toChars ("y "))
    (toChars (" 4 / 0")) [] (["4", "0", "/"]) (by decide) (by decide) rfl rfl rfl
  rw [h]
  decide

/-- C3: whenever the pre-scan of a processed line finds an undefined
variable (a token that is alphanumeric, not purely numeric, and not a key of
the store), `process_code` reports `"Undefined variable <token>"` naming the
first such token, with an empty postfix sequence and the store unchanged —
on both the assignment path (after name validation) and the bare-expression
path.  The third part states that the pre-scan fires exactly when such a
token exists among the tokens. -/
theorem C3_undefined_prescan :
    (∀ (n : Nat) (code v e : List Char) (vars : VarStore) (t : String),
      pySplit '=' code = [v, e] →
      is_valid_variable_name (pyStrip v) = true →
      firstUndef (tokenize (pyStrip e)) vars = some t →
      process_code n code vars =
        { varName := some (String.mk (pyStrip v)), post := [],
          result := LineResult.err ("Undefined variable " ++ t), varsOut := vars,
          newErrors := [lineMsg n ("Undefined variable " ++ t)], usedAdd := none }) ∧
    (∀ (n : Nat) (code : List Char) (vars : VarStore) (t : String),
      '=' ∉ code →
      firstUndef (tokenize code) vars = some t →
      process_code n code vars =
        { varName := none, post := [],
          result := LineResult.err ("Undefined variable " ++ t), varsOut := vars,
          newErrors := [lineMsg n ("Undefined variable " ++ t)], usedAdd := none }) ∧
    (∀ (ts : List String) (vars : VarStore),
      (firstUndef ts vars).isSome = true ↔
        ∃ t ∈ ts, (strIsAlnum t && !(strIsDigit t) && (List.lookup t vars).isNone) = true) := by
  refine ⟨?_, ?_, ?_⟩
  · intro n code v e vars t hsplit hvalid hundef
    have hmem : '=' ∈ code := mem_of_pySplit_length (by rw [hsplit]; simp)
    simp only [process_code]
    rw [if_pos hmem]
    simp only [hsplit]
    simp [hvalid, hundef]
  · intro n code vars t hmem hundef
    simp only [process_code]
    rw [if_neg hmem]
    simp [hundef]
  · intro ts vars
    simp [firstUndef, List.find?_isSome]

/-- C3 witness: the bare line `z + 1` on line 1 with an empty store. -/
theorem C3_undefined_prescan_witness :
    process_code 1 (toChars ("z + 1")) [] =
      { varName := none, post := [],
        result := LineResult.err ("Undefined variable z"), varsOut := [],
        newErrors := [lineMsg 1 ("Undefined variable z")], usedAdd := none } := by
  have h := C3_undefined_prescan.2.1 1 (toChars ("z + 1")) [] ("z") (by decide) rfl
  rw [h]
  decide

/-- C6: a line containing more than one `=` character makes
`code.split('=')` produce more than two parts, so the two-target unpacking
fails; the fault is caught, a line-numbered
`"too many values to unpack (expected 2)"` message is appended, the outcome
is an error with an empty postfix sequence, the store is unchanged, and the
session loop continues with the next line (second part). -/
theorem C6_multiple_assignment :
    (∀ (n : Nat) (code : List Char) (vars : VarStore),
      2 ≤ code.count '=' →
      process_code n code vars =
        { varName := none, post := [],
          result := LineResult.err ("too many values to unpack (expected 2)"),
          varsOut := vars,
          newErrors := [lineMsg n ("too many values to unpack (expected 2)")],
          usedAdd := none }) ∧
    (∀ (i : Nat) (l : List Char) (ls : List (List Char)) (vars : VarStore)
        (errs used : List String),
      2 ≤ (pyStrip l).count '=' →
      processLines i (l :: ls) vars errs used =
        { outs := process_code i (pyStrip l) vars ::
            (processLines (i + 1) ls vars
              (errs ++ [lineMsg i ("too many values to unpack (expected 2)")]) used).outs,
          vars := (processLines (i + 1) ls vars
            (errs ++ [lineMsg i ("too many values to unpack (expected 2)")]) used).vars,
          errors := (processLines (i + 1) ls vars
            (errs ++ [lineMsg i ("too many values to unpack (expected 2)")]) used).errors,
          used := (processLines (i + 1) ls vars
            (errs ++ [lineMsg i ("too many values to unpack (expected 2)")]) used).used }) := by
  have main : ∀ (n : Nat) (code : List Char) (vars : VarStore),
      2 ≤ code.count '=' →
      process_code n code vars =
        { varName := none, post := [],
          result := LineResult.err ("too many values to unpack (expected 2)"),
          varsOut := vars,
          newErrors := [lineMsg n ("too many values to unpack (expected 2)")],
          usedAdd := none } := by
    intro n code vars hcount
    have hlen : 3 ≤ (pySplit '=' code).length := by
      rw [pySplit_length]
      omega
    have hmem : '=' ∈ code := mem_of_pySplit_length (by omega)
    cases hsp : pySplit '=' code with
    | nil => exact absurd hsp (pySplit_ne_nil '=' code)
    | cons p1 rest1 =>
      cases rest1 with
      | nil =>
        rw [hsp] at hlen
        simp at hlen
      | cons p2 rest2 =>
        cases rest2 with
        | nil =>
          rw [hsp] at hlen
          simp at hlen
        | cons p3 ps =>
          simp only [process_code]
          rw [if_pos hmem]
          simp only [hsp]
          rfl
  refine ⟨main, ?_⟩
  intro i l ls vars errs used hcount
  have hmem : '=' ∈ pyStrip l := by
    refine mem_of_pySplit_length ?_
    rw [pySplit_length]
    omega
  have hne : (pyStrip l).isEmpty = false := by
    cases hsl : pyStrip l with
    | nil =>
      rw [hsl] at hmem
      simp at hmem
    | cons x xs => rfl
  simp only [processLines, hne]
  rw [main i (pyStrip l) vars hcount]
  simp

/-- C6 witness: the line `a = b = 2` (two `=` characters) on line 1 with an
empty store, followed by session continuation over an empty tail. -/
theorem C6_multiple_assignment_witness :
    process_code 1 (toChars ("a = b = 2")) [] =
      { varName := none, post := [],
        result := LineResult.err ("too many values to unpack (expected 2)"),
        varsOut := [],
        newErrors := [lineMsg 1 ("too many values to unpack (expected 2)")],
        usedAdd := none } :=
  C6_multiple_assignment.1 1 (toChars ("a = b = 2")) [] (by decide)

/-- C4 counterexample: on the single line `)` the converter does not
"simply skip" the discard of the missing `(` — the unconditional
`ops_stack.pop()` raises `IndexError`, so `infix_to_postfix` produces an
error, not a postfix sequence. -/
theorem C4_counterexample :
    infixToPostfix (toChars (")")) = Except.error PyExc.indexError := rfl

/-- C4 (amended): `infix_to_postfix` is not total: handling a `)` with no
`(` anywhere on the operator stack raises `IndexError` (first part); the
claim's example `2 + 3)` therefore errors rather than yielding a postfix
sequence (second part), and `process_code` catches the exception and
reports `"pop from empty list"` with an empty postfix trace (third part). -/
theorem C4_unmatched_rparen :
    (∀ (ts out ops : List String), ("(" : String) ∉ ops →
      syLoop ((")") :: ts) out ops = Except.error PyExc.indexError) ∧
    infixToPostfix (toChars ("2 + 3)")) = Except.error PyExc.indexError ∧
    process_code 1 (toChars ("2 + 3)")) [] =
      { varName := none, post := [],
        result := LineResult.err ("pop from empty list"), varsOut := [],
        newErrors := [lineMsg 1 ("pop from empty list")], usedAdd := none } := by
  refine ⟨?_, rfl, by decide⟩
  intro ts out ops hnp
  have hd : List.dropWhile (fun o => o != "(") ops = [] := by
    induction ops with
    | nil => rfl
    | cons x xs ih =>
      have hx : x ≠ "(" := by
        intro he
        exact hnp (he ▸ List.mem_cons_self x xs)
      have hx2 : (x != "(") = true := by
        rw [bne_iff_ne]
        exact hx
      rw [List.dropWhile_cons]
      rw [hx2]
      simp only [if_true]
      exact ih (fun hm => hnp (List.mem_cons_of_mem x hm))
  simp [syLoop, strIsAlnum_rparen, hd]

/-- C4 witness: the single line `)` — empty token tail, output, and stack. -/
theorem C4_unmatched_rparen_witness :
    syLoop [(")" : String)] [] [] = Except.error PyExc.indexError :=
  C4_unmatched_rparen.1 [] [] [] (by simp)

/-- C5 counterexample: the postfix sequence of the line `2 3` leaves two
values on the operand stack, yet `evaluate_postfix` returns the top value
`3` instead of failing with an invalid-expression fault. -/
theorem C5_counterexample :
    infixToPostfix (toChars ("2 3")) = Except.ok ["2", "3"] ∧
    evaluatePostfix ["2", "3"] [] = Except.ok (some (PyNum.int 3)) := ⟨rfl, rfl⟩

/-- C5 (amended): evaluation faults with `IndexError` when the final stack
is empty (only possible for an empty postfix sequence) and when an operator
token arrives with fewer than two operands on the stack; but when the final
stack holds *more* than one value the evaluator silently returns the top
value — no fault is raised. -/
theorem C5_final_stack :
    (∀ vars : VarStore, evaluatePostfix [] vars = Except.error PyExc.indexError) ∧
    (∀ (t : String) (ts : List String) (vars : VarStore) (st : List (Option PyNum)),
      strIsDigit t = false → List.lookup t vars = none → st.length < 2 →
      evalTokens (t :: ts) vars st = Except.error PyExc.indexError) ∧
    (∀ (exp : List String) (vars : VarStore) (v : Option PyNum)
        (rest : List (Option PyNum)),
      evalTokens exp vars [] = Except.ok (v :: rest) →
      evaluatePostfix exp vars = Except.ok v) := by
  refine ⟨fun vars => rfl, ?_, ?_⟩
  · intro t ts vars st hnd hnl hlen
    simp only [evalTokens, hnd, hnl]
    cases st with
    | nil => simp
    | cons b rest1 =>
      cases rest1 with
      | nil => simp
      | cons a rest =>
        simp only [List.length_cons] at hlen
        omega
  · intro exp vars v rest h
    simp only [evaluatePostfix, h]

/-- C5 witness: a lone `+` underflows the stack; the sequence `2 3` ends
with two stacked values and returns the top one. -/
theorem C5_final_stack_witness :
    evalTokens [("+" : String)] [] [] = Except.error PyExc.indexError ∧
    evaluatePostfix ["2", "3"] [] = Except.ok (some (PyNum.int 3)) :=
  ⟨C5_final_stack.2.1 ("+") [] [] [] rfl rfl (by simp),
   C5_final_stack.2.2 ["2", "3"] [] (some (PyNum.int 3)) [some (PyNum.int 2)] rfl⟩

/-- C9: `/` is Python true division — with a nonzero right operand
`apply_op` returns a `float`-tagged value carrying the exact quotient
(first part); `5 / 2` evaluates to the float `5/2 = 2.5` (second part);
the evenly divisible `4 / 2` still yields the float-tagged `2.0`, which is
a different value from the int `2` (third part); and the stored value of
`x = 4 / 2` is that float (fourth part). -/
theorem C9_true_division :
    (∀ x y : PyNum, pyIsZero (some y) = false →
      apply_op (some x) (some y) ("/") =
        Except.ok (some (PyNum.float (x.toRat / y.toRat)))) ∧
    process_code 1 (toChars ("5 / 2")) [] =
      { varName := none, post := ["5", "2", "/"],
        result := LineResult.val (PyNum.float ((5 : ℚ) / 2)), varsOut := [],
        newErrors := [], usedAdd := none } ∧
    (evaluatePostfix ["4", "2", "/"] [] = Except.ok (some (PyNum.float 2)) ∧
      PyNum.float 2 ≠ PyNum.int 2) ∧
    (runSession [toChars ("x = 4 / 2")]).vars = [(("x" : String), some (PyNum.float 2))] := by
  refine ⟨?_, ?_, ⟨?_, by decide⟩, ?_⟩
  · intro x y hz
    simp [apply_op, binArith, pyDivV, hz]
  · have h0 : process_code 1 (toChars ("5 / 2")) [] =
        { varName := none, post := ["5", "2", "/"],
          result := LineResult.val (PyNum.float ((PyNum.int 5).toRat / (PyNum.int 2).toRat)),
          varsOut := [], newErrors := [], usedAdd := none } := rfl
    have hq : (PyNum.int 5).toRat / (PyNum.int 2).toRat = (5 : ℚ) / 2 := by
      norm_num [PyNum.toRat]
    rw [h0, hq]
  · have h0 : evaluatePostfix ["4", "2", "/"] [] =
        Except.ok (some (PyNum.float ((PyNum.int 4).toRat / (PyNum.int 2).toRat))) := rfl
    have hq : (PyNum.int 4).toRat / (PyNum.int 2).toRat = (2 : ℚ) := by
      norm_num [PyNum.toRat]
    rw [h0, hq]
  · have h0 : (runSession [toChars ("x = 4 / 2")]).vars =
        [(("x" : String), some (PyNum.float ((PyNum.int 4).toRat / (PyNum.int 2).toRat)))] := rfl
    have hq : (PyNum.int 4).toRat / (PyNum.int 2).toRat = (2 : ℚ) := by
      norm_num [PyNum.toRat]
    rw [h0, hq]

/-- C9 witness: `5 / 2` through `apply_op` with int operands yields the
float tagged with the exact quotient of the operands. -/
theorem C9_true_division_witness :
    apply_op (some (PyNum.int 5)) (some (PyNum.int 2)) ("/") =
      Except.ok (some (PyNum.float ((PyNum.int 5).toRat / (PyNum.int 2).toRat))) :=
  C9_true_division.1 (PyNum.int 5) (PyNum.int 2) rfl

/-- C10: the division-free line `2 ( 3` converts to the postfix sequence
`2 3 (`; applying the stray `(` as an operator falls through `apply_op` and
returns `None`; evaluation completes with `None`; `process_code` then
reports the result `"Error: Division by zero"` although no message is
appended to the session error list. -/
theorem C10_none_result :
    apply_op (some (PyNum.int 2)) (some (PyNum.int 3)) ("(") = Except.ok none ∧
    infixToPostfix (toChars ("2 ( 3")) = Except.ok ["2", "3", "("] ∧
    evaluatePostfix ["2", "3", "("] [] = Except.ok none ∧
    process_code 1 (toChars ("2 ( 3")) [] =
      { varName := none, post := ["2", "3", "("],
        result := LineResult.err ("Division by zero"), varsOut := [],
        newErrors := [], usedAdd := none } ∧
    (runSession [toChars ("2 ( 3")]).errors = ([] : List String) :=
  ⟨rfl, rfl, rfl, by decide, by decide⟩

theorem process_code_store_change (n : Nat) (code : List Char) (vars : VarStore) :
    ((process_code n code vars).varsOut = vars ∧
      (process_code n code vars).usedAdd = none) ∨
    (∃ nm val, (process_code n code vars).varName = some nm ∧
      (process_code n code vars).varsOut = (nm, val) :: vars ∧
      (process_code n code vars).usedAdd = some nm ∧
      evaluatePostfix (process_code n code vars).post vars = Except.ok val) := by
  simp only [process_code]
  split
  · split
    · split
      · split
        · left
          exact ⟨rfl, rfl⟩
        · split
          · left
            exact ⟨rfl, rfl⟩
          · split
            · next value heq =>
              right
              exact ⟨_, value, rfl, rfl, rfl, heq⟩
            · left
              exact ⟨rfl, rfl⟩
            · left
              exact ⟨rfl, rfl⟩
      · left
        exact ⟨rfl, rfl⟩
    · left
      exact ⟨rfl, rfl⟩
  · split
    · left
      exact ⟨rfl, rfl⟩
    · split
      · left
        exact ⟨rfl, rfl⟩
      · split
        · left
          exact ⟨rfl, rfl⟩
        · left
          exact ⟨rfl, rfl⟩
        · left
          exact ⟨rfl, rfl⟩

theorem processLines_store_used_inv :
    ∀ (ls : List (List Char)) (i : Nat) (vars : VarStore) (errs used : List String),
      (∀ k, (List.lookup k vars).isSome = true ↔ k ∈ used) →
      ∀ k, (List.lookup k (processLines i ls vars errs used).vars).isSome = true ↔
        k ∈ (processLines i ls vars errs used).used := by
  intro ls
  induction ls with
  | nil =>
    intro i vars errs used hinv k
    simpa [processLines] using hinv k
  | cons l ls ih =>
    intro i vars errs used hinv k
    simp only [processLines]
    by_cases hb : (pyStrip l).isEmpty = true
    · rw [if_pos hb]
      exact ih _ _ _ _ hinv k
    · rw [if_neg hb]
      dsimp only
      rcases process_code_store_change i (pyStrip l) vars with ⟨hv, hu⟩ | ⟨nm, val, _, hv, hu, _⟩
      · simp only [hv, hu]
        exact ih _ _ _ _ hinv k
      · simp only [hv, hu]
        refine ih _ _ _ _ ?_ k
        intro k2
        by_cases hk : k2 = nm
        · subst hk
          have hl : List.lookup k2 ((k2, val) :: vars) = some val := by
            simp [List.lookup]
          rw [hl]
          simp only [Option.isSome_some, true_iff]
          by_cases hm : k2 ∈ used <;> simp [hm]
        · have hbeq : (k2 == nm) = false := by
            rw [beq_eq_false_iff_ne]
            exact hk
          have hl : List.lookup k2 ((nm, val) :: vars) = List.lookup k2 vars := by
            simp [List.lookup, hbeq]
          rw [hl, hinv k2]
          by_cases hm : nm ∈ used
          · simp [hm]
          · simp [hm, hk]

/-- C8 (amended): a single `process_code` call either leaves the store and
the used-set untouched, or — exactly when it is an assignment line whose
expression evaluation returned normally (possibly returning `None`, in
which case the outcome is still the error `"Division by zero"`) — it
prepends the binding of the target to the returned value and records the
target in the used-set (first part).  Consequently, after any session
prefix from a fresh store, a name is a key of the Variable Store if and
only if it is in the session's used-variable set, i.e. it was the target of
an assignment whose evaluation completed (second part). -/
theorem C8_store_binding :
    (∀ (n : Nat) (code : List Char) (vars : VarStore),
      ((process_code n code vars).varsOut = vars ∧
        (process_code n code vars).usedAdd = none) ∨
      (∃ nm val, (process_code n code vars).varName = some nm ∧
        (process_code n code vars).varsOut = (nm, val) :: vars ∧
        (process_code n code vars).usedAdd = some nm ∧
        evaluatePostfix (process_code n code vars).post vars = Except.ok val)) ∧
    (∀ (lines : List (List Char)) (k : String),
      (List.lookup k (runSession lines).vars).isSome = true ↔
        k ∈ (runSession lines).used) := by
  refine ⟨process_code_store_change, ?_⟩
  intro lines k
  exact processLines_store_used_inv lines 1 [] [] [] (by simp) k

/-- C8 counterexample: the line `x = 2 ( 3` has an error outcome
(`"Error: Division by zero"`, and it appends no session error either), yet
it binds `x` (to the `None` value) in the Variable Store — a faulted,
unsuccessful line changes the store, contradicting the claimed invariant. -/
theorem C8_counterexample :
    (runSession [toChars ("x = 2 ( 3")]).vars = [(("x" : String), (none : Option PyNum))] ∧
    (runSession [toChars ("x = 2 ( 3")]).outs.map ProcOut.result =
      [LineResult.err ("Division by zero")] ∧
    (runSession [toChars ("x = 2 ( 3")]).errors = ([] : List String) :=
  ⟨by decide, by decide, by decide⟩

/-- C1 counterexample: the claim quantifies over *any* variable store, but
`evaluate_postfix` looks every non-digit token up in the store before
treating it as an operator.  A store that binds the key `"+"` hijacks the
operator of the balanced expression `2 + 3`: the pipeline returns the bound
value `99` instead of the expression's standard value `5`. -/
theorem C1_counterexample :
    Parses 1 (tokenize (toChars ("2 + 3"))) (AST.add (AST.num ("2")) (AST.num ("3"))) ∧
    astEval (AST.add (AST.num ("2")) (AST.num ("3"))) = some 5 ∧
    infixToPostfix (toChars ("2 + 3")) = Except.ok ["2", "3", "+"] ∧
    evaluatePostfix ["2", "3", "+"] [(("+" : String), some (PyNum.int 99))] =
      Except.ok (some (PyNum.int 99)) ∧
    (PyNum.int 99).toRat ≠ (5 : ℚ) := by
  refine ⟨?_, ?_, rfl, rfl, by decide⟩
  · exact Parses.add (Parses.term (Parses.factor (Parses.num ("2") rfl)))
      (Parses.factor (Parses.num ("3") rfl))
  · have h2 : strToNat ("2") = 2 := rfl
    have h3 : strToNat ("3") = 3 := rfl
    simp only [astEval, h2, h3]
    norm_num

/-- C1 (amended): for every balanced infix expression over integer
literals, `+ - * /` and parentheses (any token sequence the layered
left-associative grammar `Parses` accepts), whenever the reference
evaluation in exact arithmetic yields a value, the pipeline — `tokenize`,
then `infix_to_postfix`, then `evaluate_postfix` with any variable store
*that binds none of the four operator symbols* — produces exactly the
tree's postfix sequence and a value with that exact numeric content. -/
theorem C1_pipeline_correct (s : List Char) (a : AST) (q : ℚ) (vars : VarStore)
    (hp : Parses 1 (tokenize s) a) (hq : astEval a = some q) (hfree : opFree vars) :
    ∃ v : PyNum, infixToPostfix s = Except.ok (postA a) ∧
      evaluatePostfix (postA a) vars = Except.ok (some v) ∧ v.toRat = q := by
  obtain ⟨fp, pend, hrun, hpost, _⟩ := parses_syGood hp [] []
    (by simp only [headPrec]; decide)
  obtain ⟨v, hvPy, hvq⟩ := astEvalPy_of_astEval hq
  have hwf := parses_astWf hp
  refine ⟨v, ?_, ?_, hvq⟩
  · simp only [List.append_nil, List.nil_append] at hrun
    simp only [infixToPostfix, hrun, hpost]
  · simp only [evaluatePostfix, evalTokens_postA hfree a v hwf hvPy []]

/-- C1 witness: the claim's own example `2 + 3 * 4` with an empty store —
postfix `2 3 4 * +` and value `14`. -/
theorem C1_pipeline_correct_witness :
    ∃ v : PyNum, infixToPostfix (toChars ("2 + 3 * 4")) = Except.ok ["2", "3", "4", "*", "+"] ∧
      evaluatePostfix ["2", "3", "4", "*", "+"] [] = Except.ok (some v) ∧
      v.toRat = (14 : ℚ) := by
  have hp : Parses 1 (tokenize (toChars ("2 + 3 * 4")))
      (AST.add (AST.num ("2")) (AST.mul (AST.num ("3")) (AST.num ("4")))) :=
    Parses.add (Parses.term (Parses.factor (Parses.num ("2") rfl)))
      (Parses.mul (Parses.factor (Parses.num ("3") rfl)) (Parses.num ("4") rfl))
  have hq : astEval (AST.add (AST.num ("2")) (AST.mul (AST.num ("3")) (AST.num ("4"))))
      = some 14 := by
    have h2 : strToNat ("2") = 2 := rfl
    have h3 : strToNat ("3") = 3 := rfl
    have h4 : strToNat ("4") = 4 := rfl
    simp only [astEval, h2, h3, h4]
    norm_num
  have h := C1_pipeline_correct (toChars ("2 + 3 * 4"))
    (AST.add (AST.num ("2")) (AST.mul (AST.num ("3")) (AST.num ("4")))) 14 []
    hp hq ⟨rfl, rfl, rfl, rfl⟩
  have hpa : postA (AST.add (AST.num ("2")) (AST.mul (AST.num ("3")) (AST.num ("4")))) =
      ["2", "3", "4", "*", "+"] := rfl
  rw [hpa] at h
  exact h
